import Mathlib

/-!
Verification of the BitWipers core against its specification.

This file gives a shallow embedding of the parts of the code that the
claims are about:

* `src/bitwipers/core/patterns.py` — `WipePattern`, `WipePatterns.get_pattern_data`
  and the per-scheme generators;
* `src/bitwipers/core/wiper.py` — `WipeStatus`, `DataWiper._get_pass_count`,
  the block-write loops of `DataWiper._perform_wipe` / `_perform_file_wipe`,
  the pass loop with its cancellation checks, and the status logic of
  `DataWiper.wipe_device` / `DataWiper.wipe_file`;
* `src/bitwipers/crypto/certificate.py` — `WipeCertificate`,
  `CertificateGenerator.generate_certificate` and
  `CertificateGenerator.verify_certificate`.

Modelling conventions:

* bytes are `Nat` values, byte strings are `List Nat`;
* `secrets.token_bytes` is modelled by an abstract entropy source
  `rnd : Nat → Nat → Nat`: `rnd n i` is byte `i` of the block returned by
  the `token_bytes` call made for the generator's yield number `n`
  (each call draws a fresh block, so indexing draws by yield number is a
  faithful relabelling);
* `device.write(chunk)` is assumed to report the full chunk length, as the
  code itself assumes (it adds the return value to its counters);
* the cooperative cancellation flag `self._cancelled` is modelled by a
  function `cfl : Nat → Bool` giving the value observed by the k-th read
  of the flag during the operation; a monotone `cfl` models the real
  flag, which is only ever set, never cleared;
* I/O boundaries (`os.path.exists`, opening the target, `os.remove`,
  `_quick_format`) are modelled by explicit boolean parameters describing
  whether the call succeeds, since they are external-world effects;
* timestamps are modelled as abstract strings (their ISO renderings) and
  durations as exact integers; `self._cancelled` reads are sequenced in
  program order.
-/

/-- Byte strings (`bytes` values in the source) as lists of byte values. -/
abbrev ByteStr := List Nat

/-- Entropy source: `rnd n i` is byte `i` of the fresh random block produced
by the `secrets.token_bytes(block_size)` call made for generator yield `n`. -/
abbrev RandSrc := Nat → Nat → Nat

/-- The random block of length `B` drawn for yield number `n`
(`secrets.token_bytes(block_size)` in `patterns.py`). -/
def randBlock (rnd : RandSrc) (n B : Nat) : ByteStr :=
  (List.range B).map (rnd n)

/-- `WipePattern` enumeration from `src/bitwipers/core/patterns.py`. -/
inductive WipePattern where
  | zero_fill
  | one_fill
  | random
  | dod_3_pass
  | dod_7_pass
  | gutmann
  | nist_clear
  | nist_purge
  deriving DecidableEq, Repr

/-- The `.value` string of each `WipePattern` member. -/
def WipePattern.value : WipePattern → String
  | .zero_fill => "zero_fill"
  | .one_fill => "one_fill"
  | .random => "random"
  | .dod_3_pass => "dod_3_pass"
  | .dod_7_pass => "dod_7_pass"
  | .gutmann => "gutmann"
  | .nist_clear => "nist_clear"
  | .nist_purge => "nist_purge"

/-- `WipeStatus` enumeration from `src/bitwipers/core/wiper.py`. -/
inductive WipeStatus where
  | pending
  | in_progress
  | completed
  | failed
  | cancelled
  deriving DecidableEq, Repr

/-- The `.value` string of each `WipeStatus` member. -/
def WipeStatus.value : WipeStatus → String
  | .pending => "pending"
  | .in_progress => "in_progress"
  | .completed => "completed"
  | .failed => "failed"
  | .cancelled => "cancelled"

/-- Python `bytes.__mul__`: `p * k` repeats the byte string `p`, `k` times. -/
def bytesMul (p : ByteStr) (k : Nat) : ByteStr :=
  (List.replicate k p).flatten

/-- The 35 Gutmann byte patterns of `WipePatterns._gutmann_method`
(each a one-byte `bytes` literal in the source). -/
def gutmannPatterns : List ByteStr :=
  [[0x55], [0xAA], [0x92], [0x49], [0x24], [0x00], [0x11],
   [0x22], [0x33], [0x44], [0x55], [0x66], [0x77], [0x88],
   [0x99], [0xAA], [0xBB], [0xCC], [0xDD], [0xEE], [0xFF],
   [0x92], [0x49], [0x24], [0x12], [0xED], [0xB8], [0x74],
   [0x36], [0x1B], [0x8D], [0xC4], [0x62], [0x31], [0x18]]

/-- Block expansion in `_gutmann_method`: a length-1 pattern is repeated
`block_size` times; a longer pattern is tiled `block_size // len + 1` times
and truncated to `block_size`. -/
def gutmannExpand (p : ByteStr) (B : Nat) : ByteStr :=
  if p.length = 1 then bytesMul p B
  else (bytesMul p (B / p.length + 1)).take B

/-- `WipePatterns.get_pattern_data` as a yield-indexed stream: `some b` is the
block produced by the n-th `yield`, `none` means the generator is exhausted.
`zero_fill`, `one_fill`, `random` and `nist_clear` are infinite generators;
the multi-pass generators yield a fixed finite list of blocks. -/
def get_pattern_data (p : WipePattern) (rnd : RandSrc) (B : Nat) : Nat → Option ByteStr :=
  match p with
  | .zero_fill => fun _ => some (List.replicate B 0x00)
  | .one_fill => fun _ => some (List.replicate B 0xFF)
  | .random => fun n => some (randBlock rnd n B)
  | .dod_3_pass => fun n =>
      [List.replicate B 0x00, List.replicate B 0xFF, randBlock rnd 2 B].get? n
  | .dod_7_pass => fun n =>
      [List.replicate B 0x00, List.replicate B 0xFF, List.replicate B 0x92,
       List.replicate B 0x49, List.replicate B 0x24, List.replicate B 0x00,
       randBlock rnd 6 B].get? n
  | .gutmann => fun n => (gutmannPatterns.map (fun q => gutmannExpand q B)).get? n
  | .nist_clear => fun n => some (randBlock rnd n B)
  | .nist_purge => fun n =>
      [randBlock rnd 0 B, List.replicate B 0x00, randBlock rnd 2 B].get? n

/-- `DataWiper._get_pass_count`: the fixed pass-count table.  The source
dictionary lists every `WipePattern` member, so the `.get(pattern, 1)`
default is never taken. -/
def get_pass_count : WipePattern → Nat
  | .zero_fill => 1
  | .one_fill => 1
  | .random => 1
  | .dod_3_pass => 3
  | .dod_7_pass => 7
  | .nist_clear => 1
  | .nist_purge => 3
  | .gutmann => 35

/-- Every block yielded by `get_pattern_data` has length `block_size`. -/
theorem get_pattern_data_length (p : WipePattern) (rnd : RandSrc) (B n : Nat)
    (b : ByteStr) (h : get_pattern_data p rnd B n = some b) : b.length = B := by
  have hrep : ∀ v : Nat, (List.replicate B v).length = B := fun v => List.length_replicate ..
  have hrand : ∀ m, (randBlock rnd m B).length = B := by
    intro m; simp [randBlock]
  cases p <;> simp only [get_pattern_data] at h
  case zero_fill => cases h; exact hrep _
  case one_fill => cases h; exact hrep _
  case random => cases h; exact hrand _
  case nist_clear => cases h; exact hrand _
  case dod_3_pass =>
    have := List.get?_mem h
    simp at this
    rcases this with h1 | h1 | h1 <;> subst h1 <;> first | exact hrep _ | exact hrand _
  case dod_7_pass =>
    have := List.get?_mem h
    simp at this
    rcases this with h1 | h1 | h1 | h1 | h1 | h1 | h1 <;> subst h1 <;>
      first | exact hrep _ | exact hrand _
  case nist_purge =>
    have := List.get?_mem h
    simp at this
    rcases this with h1 | h1 | h1 <;> subst h1 <;> first | exact hrep _ | exact hrand _
  case gutmann =>
    have := List.get?_mem h
    simp only [List.mem_map] at this
    obtain ⟨q, hq, rfl⟩ := this
    have hq1 : q.length = 1 := by
      revert hq
      simp [gutmannPatterns]
      rintro (rfl | rfl | rfl | rfl | rfl | rfl | rfl | rfl | rfl | rfl | rfl | rfl |
        rfl | rfl | rfl | rfl | rfl | rfl | rfl | rfl | rfl | rfl | rfl | rfl | rfl |
        rfl | rfl | rfl | rfl | rfl | rfl | rfl | rfl | rfl | rfl) <;> rfl
    simp [gutmannExpand, hq1, bytesMul]

/-- Result of the inner block-write loop of one pass
(`while bytes_written_pass < result.total_bytes:` in `_perform_wipe`,
identical in shape to the loop of `_perform_file_wipe`). -/
structure PassOut where
  chunks : List ByteStr
  checks : Nat
  cancelled : Bool
  deriving Repr, DecidableEq

/-- The chunk written by one iteration of the block-write loop:
`remaining = total - written`, `chunk_size = min(block_size, remaining)`,
`chunk = pass_data if chunk_size == block_size else pass_data[:chunk_size]`. -/
def writeChunk (b : ByteStr) (S B written : Nat) : ByteStr :=
  if min B (S - written) = B then b else b.take (min B (S - written))

/-- The inner block-write loop of one pass, started with `written` bytes
already written in this pass and `checks` reads of the cancellation flag
already consumed.  Each iteration first re-tests the loop condition, then
reads the cancellation flag (returning at once when it is set), then writes
the `writeChunk` and advances the counters by the chunk length actually
written.

The `chunk.length = 0` branch is unreachable in the runs the theorems are
about (`0 < B` and `pass_data` of length `B`); on such inputs the Python
loop would never terminate, so the model simply stops there. -/
def passLoop (cfl : Nat → Bool) (b : ByteStr) (S B : Nat) (written checks : Nat) :
    PassOut :=
  if _h : written < S then
    if cfl checks then ⟨[], checks + 1, true⟩
    else
      if _hc : (writeChunk b S B written).length = 0 then ⟨[], checks + 1, false⟩
      else
        let r := passLoop cfl b S B (written + (writeChunk b S B written).length)
          (checks + 1)
        ⟨writeChunk b S B written :: r.chunks, r.checks, r.cancelled⟩
  else ⟨[], checks, false⟩
termination_by S - written
decreasing_by omega

/-- Result of the pass loop of `_perform_wipe` / `_perform_file_wipe`:
the writes of each performed pass in order, the final value of the
`passes_completed` counter, the reads of the cancellation flag consumed,
the boolean the function returns (`success`), and whether a cancellation
check came back positive. -/
structure RunOut where
  passWrites : List (List ByteStr)
  passesCompleted : Nat
  checks : Nat
  success : Bool
  cancelObserved : Bool
  deriving Repr, DecidableEq

/-- The pass loop (`for pass_data in pattern_generator:`) of
`_perform_wipe`, starting at pass counter `n` with `checks` flag reads
consumed.  Per iteration: the generator is advanced (loop ends with
success when it is exhausted), the cancellation flag is read (returning
`False` when set), `passes_completed` is incremented, the block-write loop
runs from offset 0, and the loop breaks with success once
`pass_number >= total_passes`.  `_perform_file_wipe` has the same loop
structure (it differs only in how `result.bytes_wiped` is reported, see
`fileBytesTrace`). -/
def runLoop (cfl : Nat → Bool) (gen : Nat → Option ByteStr) (tot S B : Nat)
    (n checks : Nat) : RunOut :=
  match gen n with
  | none => ⟨[], n, checks, true, false⟩
  | some b =>
    if cfl checks then ⟨[], n, checks + 1, false, true⟩
    else
      let p := passLoop cfl b S B 0 (checks + 1)
      if p.cancelled then ⟨[p.chunks], n + 1, p.checks, false, true⟩
      else if _h : n + 1 ≥ tot then ⟨[p.chunks], n + 1, p.checks, true, false⟩
      else
        let r := runLoop cfl gen tot S B (n + 1) p.checks
        ⟨p.chunks :: r.passWrites, r.passesCompleted, r.checks, r.success, r.cancelObserved⟩
termination_by tot - n
decreasing_by omega

/-- Closed form of one complete, uncancelled pass over a target of `S`
bytes with block size `B`: `S / B` full blocks followed by one block
truncated to `S % B` bytes when `S` is not block-aligned. -/
def tileChunks (b : ByteStr) (S B : Nat) : List ByteStr :=
  List.replicate (S / B) b ++ (if S % B = 0 then [] else [b.take (S % B)])

/-- The never-set cancellation flag (no `cancel_operation` call). -/
def noCancel : Nat → Bool := fun _ => false

/-- The running values a counter takes when it starts at `acc` and is
increased by each element of the list in turn (one value per write, the
value reported to `result.bytes_wiped` after that write). -/
def cumTraceAux (acc : Nat) : List Nat → List Nat
  | [] => []
  | x :: xs => (acc + x) :: cumTraceAux (acc + x) xs

/-- The chronological values assigned to `result.bytes_wiped` by
`_perform_wipe`: the cumulative counter `bytes_written_total` never resets
across passes. -/
def deviceBytesTrace (pw : List (List ByteStr)) : List Nat :=
  cumTraceAux 0 (pw.flatten.map List.length)

/-- The chronological values assigned to `result.bytes_wiped` by
`_perform_file_wipe`: the per-pass counter `bytes_written` restarts at 0 at
the top of every pass. -/
def fileBytesTrace (pw : List (List ByteStr)) : List Nat :=
  (pw.map (fun pass => cumTraceAux 0 (pass.map List.length))).flatten

/-- Total number of bytes written across all recorded chunk writes. -/
def totalWritten (pw : List (List ByteStr)) : Nat :=
  (pw.flatten.map List.length).sum

/-- Externally visible outcome of `wipe_device` / `wipe_file`: the final
`WipeResult` fields the claims are about, the chronological trace of
`result.status` assignments, the chronological trace of
`result.bytes_wiped` assignments, and the chunk writes per pass. -/
structure WipeOut where
  status : WipeStatus
  endTimeSet : Bool
  errorMessage : Option String
  totalBytes : Nat
  totalPasses : Nat
  passWrites : List (List ByteStr)
  passesCompleted : Nat
  bytesWipedTrace : List Nat
  bytesWiped : Nat
  cancelObserved : Bool
  statusTrace : List WipeStatus
  deriving Repr, DecidableEq

/-- `DataWiper.wipe_device`.  `valid` is the boolean returned by the
`_validate_device` I/O probe (target exists and can be opened and read);
`quickFormat` is the `quick_format` argument, and `formatRaises` models
`_quick_format` raising an exception it does not catch itself (it only
catches `subprocess.CalledProcessError`), which the `except` clause of
`wipe_device` then turns into a `failed` result.
`_verify_wipe_completion` catches every exception internally, so the
`verify_wipe` step cannot raise and is not modelled.  The two flag reads
after the write loop (`success and not self._cancelled`, then
`elif self._cancelled`) consume check indices `r.checks` and
`r.checks + 1`. -/
def wipe_device (valid : Bool) (path : String) (p : WipePattern) (rnd : RandSrc)
    (S B : Nat) (cfl : Nat → Bool) (quickFormat formatRaises : Bool) : WipeOut :=
  if valid = false then
    { status := .failed, endTimeSet := false,
      errorMessage := some ("Invalid or inaccessible device: " ++ path),
      totalBytes := 0, totalPasses := 0, passWrites := [], passesCompleted := 0,
      bytesWipedTrace := [], bytesWiped := 0, cancelObserved := false,
      statusTrace := [.pending, .failed] }
  else
    let tot := get_pass_count p
    let r := runLoop cfl (get_pattern_data p rnd B) tot S B 0 0
    let trace := deviceBytesTrace r.passWrites
    let base : WipeOut :=
      { status := .failed, endTimeSet := true, errorMessage := none,
        totalBytes := S, totalPasses := tot, passWrites := r.passWrites,
        passesCompleted := r.passesCompleted, bytesWipedTrace := trace,
        bytesWiped := trace.getLast?.getD 0, cancelObserved := r.cancelObserved,
        statusTrace := [.pending, .in_progress, .failed] }
    if r.success && !(cfl r.checks) then
      if quickFormat && formatRaises then
        { base with
          status := .failed,
          errorMessage := some "quick format raised",
          statusTrace := [.pending, .in_progress, .completed, .failed] }
      else
        { base with
          status := .completed,
          statusTrace := [.pending, .in_progress, .completed] }
    else if cfl (r.checks + 1) then
      { base with
        status := .cancelled,
        statusTrace := [.pending, .in_progress, .cancelled] }
    else
      base

/-- `DataWiper.wipe_file`.  `fileExists` is the result of the
`os.path.exists`/`os.path.isfile` probe; `removeFile` is the `remove_file`
argument, and `removeRaises` models `os.remove` raising, which the
`except` clause of `wipe_file` turns into a `failed` result.  The write
loops are those of `_perform_file_wipe`, whose only difference from
`_perform_wipe` is that `result.bytes_wiped` is assigned the per-pass
counter (`fileBytesTrace`). -/
def wipe_file (fileExists : Bool) (path : String) (p : WipePattern) (rnd : RandSrc)
    (S B : Nat) (cfl : Nat → Bool) (removeFile removeRaises : Bool) : WipeOut :=
  if fileExists = false then
    { status := .failed, endTimeSet := false,
      errorMessage := some ("File not found: " ++ path),
      totalBytes := 0, totalPasses := 0, passWrites := [], passesCompleted := 0,
      bytesWipedTrace := [], bytesWiped := 0, cancelObserved := false,
      statusTrace := [.pending, .failed] }
  else
    let tot := get_pass_count p
    let r := runLoop cfl (get_pattern_data p rnd B) tot S B 0 0
    let trace := fileBytesTrace r.passWrites
    let base : WipeOut :=
      { status := .failed, endTimeSet := true, errorMessage := none,
        totalBytes := S, totalPasses := tot, passWrites := r.passWrites,
        passesCompleted := r.passesCompleted, bytesWipedTrace := trace,
        bytesWiped := trace.getLast?.getD 0, cancelObserved := r.cancelObserved,
        statusTrace := [.pending, .in_progress, .failed] }
    if r.success && !(cfl r.checks) then
      if removeFile && removeRaises then
        { base with
          status := .failed,
          errorMessage := some "file removal raised",
          statusTrace := [.pending, .in_progress, .completed, .failed] }
      else
        { base with
          status := .completed,
          statusTrace := [.pending, .in_progress, .completed] }
    else if cfl (r.checks + 1) then
      { base with
        status := .cancelled,
        statusTrace := [.pending, .in_progress, .cancelled] }
    else
      base

theorem writeChunk_length (b : ByteStr) (S B written : Nat) (hb : b.length = B) :
    (writeChunk b S B written).length = min B (S - written) := by
  unfold writeChunk
  by_cases h : min B (S - written) = B
  · simp [h, hb]
  · simp only [h, if_false]
    simp [hb]

theorem tileChunks_zero (b : ByteStr) (B : Nat) : tileChunks b 0 B = [] := by
  simp [tileChunks]

theorem tileChunks_step (b : ByteStr) (m B : Nat) (hb : b.length = B) (hB : 0 < B)
    (hm : 0 < m) :
    tileChunks b m B =
      (if min B m = B then b else b.take (min B m)) :: tileChunks b (m - min B m) B := by
  by_cases h : B ≤ m
  · have hmin : min B m = B := by omega
    obtain ⟨r, hr⟩ : ∃ r, m = r + B := ⟨m - B, by omega⟩
    subst hr
    simp only [hmin, if_pos rfl]
    simp only [tileChunks, Nat.add_div_right _ hB, Nat.add_mod_right, Nat.add_sub_cancel]
    rw [List.replicate_succ]
    simp
  · have hmin : min B m = m := by omega
    have hne : ¬ min B m = B := by omega
    simp only [hmin, hne, if_false]
    have h1 : m / B = 0 := Nat.div_eq_of_lt (by omega)
    have h2 : m % B = m := Nat.mod_eq_of_lt (by omega)
    have h3 : m ≠ 0 := by omega
    have h4 : m ≠ B := by omega
    rw [Nat.sub_self, tileChunks_zero]
    simp [tileChunks, h1, h2, h3, h4]

/-- With the flag never set, the block-write loop of one pass writes exactly
the closed-form tiling of the remaining bytes. -/
theorem passLoop_noCancel_chunks (b : ByteStr) (S B : Nat) (hb : b.length = B)
    (hB : 0 < B) : ∀ w ck, (passLoop noCancel b S B w ck).chunks = tileChunks b (S - w) B := by
  intro w ck
  generalize hd : S - w = d
  induction d using Nat.strong_induction_on generalizing w ck with
  | _ d ih =>
    rw [passLoop]
    by_cases h : w < S
    · have hlen : (writeChunk b S B w).length = min B (S - w) := writeChunk_length b S B w hb
      have hpos : 0 < min B (S - w) := by omega
      simp only [h, dif_pos, noCancel, Bool.false_eq_true, if_false]
      rw [dif_neg (by omega)]
      simp only []
      rw [ih (S - (w + (writeChunk b S B w).length)) (by omega) _ _ rfl]
      subst hd
      rw [tileChunks_step b (S - w) B hb hB (by omega)]
      refine congrArg₂ List.cons rfl ?_
      show tileChunks b (S - (w + (writeChunk b S B w).length)) B =
        tileChunks b (S - w - min B (S - w)) B
      rw [hlen]
      congr 1
      omega
    · simp only [h, dif_neg, not_false_iff]
      subst hd
      rw [(by omega : S - w = 0), tileChunks_zero]

theorem tileChunks_sum (b : ByteStr) (S B : Nat) (hb : b.length = B) (hB : 0 < B) :
    ((tileChunks b S B).map List.length).sum = S := by
  unfold tileChunks
  by_cases h : S % B = 0
  · simp [h, hb]
    conv_rhs => rw [← Nat.div_add_mod S B]
    rw [h, Nat.add_zero, Nat.mul_comm]
  · simp [h, hb]
    rw [Nat.mul_comm]
    have : S % B ≤ B := le_of_lt (Nat.mod_lt _ hB)
    rw [min_eq_left this]
    exact Nat.div_add_mod S B

theorem tileChunks_getLast (b : ByteStr) (S B : Nat) (hb : b.length = B) (hB : 0 < B)
    (hS : 0 < S) :
    ∃ c, (tileChunks b S B).getLast? = some c ∧
      c.length = (if S % B = 0 then B else S % B) := by
  unfold tileChunks
  by_cases h : S % B = 0
  · have hq : 0 < S / B := Nat.div_pos (Nat.le_of_dvd hS (Nat.dvd_iff_mod_eq_zero.mpr h)) hB
    refine ⟨b, ?_, by simp [h, hb]⟩
    simp only [h, if_pos, List.append_nil]
    rcases Nat.exists_eq_succ_of_ne_zero (Nat.pos_iff_ne_zero.mp hq) with ⟨k, hk⟩
    rw [hk, List.replicate_succ']
    simp
  · refine ⟨b.take (S % B), ?_, ?_⟩
    · simp only [h, if_neg, not_false_iff]
      simp
    · have : S % B ≤ B := le_of_lt (Nat.mod_lt _ hB)
      simp [h, hb]
      omega

theorem tileChunks_mem (b : ByteStr) (S B : Nat) (hb : b.length = B) (hB : 0 < B)
    (c : ByteStr) (hc : c ∈ tileChunks b S B) : c = b.take c.length := by
  unfold tileChunks at hc
  rcases List.mem_append.mp hc with h | h
  · have := List.eq_of_mem_replicate h
    subst this
    rw [hb, ← hb, List.take_length]
  · by_cases hmod : S % B = 0
    · simp [hmod] at h
    · simp [hmod] at h
      subst h
      have hle : S % B ≤ b.length := by
        rw [hb]; exact le_of_lt (Nat.mod_lt _ hB)
      rw [List.length_take, min_eq_left hle]

theorem passLoop_checks_ge (cfl : Nat → Bool) (b : ByteStr) (S B : Nat) :
    ∀ w ck, ck ≤ (passLoop cfl b S B w ck).checks := by
  intro w ck
  generalize hd : S - w = d
  induction d using Nat.strong_induction_on generalizing w ck with
  | _ d ih =>
    rw [passLoop]
    by_cases h : w < S
    · rw [dif_pos h]
      by_cases hc : cfl ck
      · simp [hc]
      · simp only [hc, Bool.false_eq_true, if_false]
        by_cases hz : (writeChunk b S B w).length = 0
        · simp [hz]
        · rw [dif_neg hz]
          have := ih (S - (w + (writeChunk b S B w).length)) (by omega)
            (w + (writeChunk b S B w).length) (ck + 1) rfl
          simpa using by omega
    · simp [dif_neg h]

theorem passLoop_cancelled_flag (cfl : Nat → Bool) (b : ByteStr) (S B : Nat) :
    ∀ w ck, (passLoop cfl b S B w ck).cancelled = true →
      ∃ i, cfl i = true ∧ i < (passLoop cfl b S B w ck).checks := by
  intro w ck
  generalize hd : S - w = d
  induction d using Nat.strong_induction_on generalizing w ck with
  | _ d ih =>
    rw [passLoop]
    by_cases h : w < S
    · rw [dif_pos h]
      by_cases hc : cfl ck
      · intro _
        exact ⟨ck, hc, by simp [hc]⟩
      · simp only [hc, Bool.false_eq_true, if_false]
        by_cases hz : (writeChunk b S B w).length = 0
        · simp [hz]
        · rw [dif_neg hz]
          intro hcan
          simp only at hcan
          obtain ⟨i, hi1, hi2⟩ := ih (S - (w + (writeChunk b S B w).length)) (by omega)
            (w + (writeChunk b S B w).length) (ck + 1) rfl (by simpa using hcan)
          exact ⟨i, hi1, by simpa using hi2⟩
    · simp [dif_neg h]

theorem passLoop_sum_le (cfl : Nat → Bool) (b : ByteStr) (S B : Nat)
    (hb : b.length = B) :
    ∀ w ck, ((passLoop cfl b S B w ck).chunks.map List.length).sum ≤ S - w := by
  intro w ck
  generalize hd : S - w = d
  induction d using Nat.strong_induction_on generalizing w ck with
  | _ d ih =>
    rw [passLoop]
    by_cases h : w < S
    · rw [dif_pos h]
      by_cases hc : cfl ck
      · simp [hc]
      · simp only [hc, Bool.false_eq_true, if_false]
        by_cases hz : (writeChunk b S B w).length = 0
        · simp [hz]
        · rw [dif_neg hz]
          have hlen : (writeChunk b S B w).length = min B (S - w) :=
            writeChunk_length b S B w hb
          have := ih (S - (w + (writeChunk b S B w).length)) (by omega)
            (w + (writeChunk b S B w).length) (ck + 1) rfl
          simp only [List.map_cons, List.sum_cons]
          omega
    · simp [dif_neg h]

theorem passLoop_noCancel_not_cancelled (b : ByteStr) (S B : Nat) :
    ∀ w ck, (passLoop noCancel b S B w ck).cancelled = false := by
  intro w ck
  generalize hd : S - w = d
  induction d using Nat.strong_induction_on generalizing w ck with
  | _ d ih =>
    rw [passLoop]
    by_cases h : w < S
    · rw [dif_pos h]
      simp only [noCancel, Bool.false_eq_true, if_false]
      by_cases hz : (writeChunk b S B w).length = 0
      · simp [hz]
      · rw [dif_neg hz]
        exact ih (S - (w + (writeChunk b S B w).length)) (by omega)
          (w + (writeChunk b S B w).length) (ck + 1) rfl
    · simp [dif_neg h]

theorem runLoop_checks_ge (cfl : Nat → Bool) (gen : Nat → Option ByteStr)
    (tot S B : Nat) : ∀ n ck, ck ≤ (runLoop cfl gen tot S B n ck).checks := by
  intro n ck
  generalize hd : tot - n = d
  induction d using Nat.strong_induction_on generalizing n ck with
  | _ d ih =>
    rw [runLoop]
    cases hg : gen n with
    | none => simp
    | some b =>
      simp only
      by_cases hc : cfl ck
      · simp [hc]
      · simp only [hc, Bool.false_eq_true, if_false]
        have hpc := passLoop_checks_ge cfl b S B 0 (ck + 1)
        by_cases hcan : (passLoop cfl b S B 0 (ck + 1)).cancelled
        · simp [hcan]
          omega
        · simp only [hcan, Bool.false_eq_true, if_false]
          by_cases hbr : n + 1 ≥ tot
          · rw [dif_pos hbr]
            simp
            omega
          · rw [dif_neg hbr]
            have := ih (tot - (n + 1)) (by omega) (n + 1)
              (passLoop cfl b S B 0 (ck + 1)).checks rfl
            simp only
            omega

theorem runLoop_passes_ge (cfl : Nat → Bool) (gen : Nat → Option ByteStr)
    (tot S B : Nat) : ∀ n ck, n ≤ (runLoop cfl gen tot S B n ck).passesCompleted := by
  intro n ck
  generalize hd : tot - n = d
  induction d using Nat.strong_induction_on generalizing n ck with
  | _ d ih =>
    rw [runLoop]
    cases hg : gen n with
    | none => simp
    | some b =>
      simp only
      by_cases hc : cfl ck
      · simp [hc]
      · simp only [hc, Bool.false_eq_true, if_false]
        by_cases hcan : (passLoop cfl b S B 0 (ck + 1)).cancelled
        · simp [hcan]
        · simp only [hcan, Bool.false_eq_true, if_false]
          by_cases hbr : n + 1 ≥ tot
          · rw [dif_pos hbr]
            simp
          · rw [dif_neg hbr]
            have := ih (tot - (n + 1)) (by omega) (n + 1)
              (passLoop cfl b S B 0 (ck + 1)).checks rfl
            simp only
            omega

theorem runLoop_cancelObserved_flag (cfl : Nat → Bool) (gen : Nat → Option ByteStr)
    (tot S B : Nat) :
    ∀ n ck, (runLoop cfl gen tot S B n ck).cancelObserved = true →
      ∃ i, cfl i = true ∧ i < (runLoop cfl gen tot S B n ck).checks := by
  intro n ck
  generalize hd : tot - n = d
  induction d using Nat.strong_induction_on generalizing n ck with
  | _ d ih =>
    rw [runLoop]
    cases hg : gen n with
    | none => simp
    | some b =>
      simp only
      by_cases hc : cfl ck
      · intro _
        exact ⟨ck, hc, by simp [hc]⟩
      · simp only [hc, Bool.false_eq_true, if_false]
        by_cases hcan : (passLoop cfl b S B 0 (ck + 1)).cancelled
        · intro _
          obtain ⟨i, hi1, hi2⟩ := passLoop_cancelled_flag cfl b S B 0 (ck + 1) hcan
          exact ⟨i, hi1, by simpa [hcan] using hi2⟩
        · simp only [hcan, Bool.false_eq_true, if_false]
          by_cases hbr : n + 1 ≥ tot
          · rw [dif_pos hbr]
            simp
          · rw [dif_neg hbr]
            intro hobs
            obtain ⟨i, hi1, hi2⟩ := ih (tot - (n + 1)) (by omega) (n + 1)
              (passLoop cfl b S B 0 (ck + 1)).checks rfl (by simpa using hobs)
            exact ⟨i, hi1, by simpa using hi2⟩

theorem runLoop_success_eq (cfl : Nat → Bool) (gen : Nat → Option ByteStr)
    (tot S B : Nat) :
    ∀ n ck, (runLoop cfl gen tot S B n ck).success
      = !(runLoop cfl gen tot S B n ck).cancelObserved := by
  intro n ck
  generalize hd : tot - n = d
  induction d using Nat.strong_induction_on generalizing n ck with
  | _ d ih =>
    rw [runLoop]
    cases hg : gen n with
    | none => simp
    | some b =>
      simp only
      by_cases hc : cfl ck
      · simp [hc]
      · simp only [hc, Bool.false_eq_true, if_false]
        by_cases hcan : (passLoop cfl b S B 0 (ck + 1)).cancelled
        · simp [hcan]
        · simp only [hcan, Bool.false_eq_true, if_false]
          by_cases hbr : n + 1 ≥ tot
          · rw [dif_pos hbr]
            simp
          · rw [dif_neg hbr]
            exact ih (tot - (n + 1)) (by omega) (n + 1)
              (passLoop cfl b S B 0 (ck + 1)).checks rfl

theorem totalWritten_nil : totalWritten [] = 0 := rfl

theorem totalWritten_cons (x : List ByteStr) (l : List (List ByteStr)) :
    totalWritten (x :: l) = (x.map List.length).sum + totalWritten l := by
  simp [totalWritten]

theorem runLoop_sum_le (cfl : Nat → Bool) (gen : Nat → Option ByteStr)
    (tot S B : Nat) (hgen : ∀ k b, gen k = some b → b.length = B) :
    ∀ n ck, totalWritten (runLoop cfl gen tot S B n ck).passWrites
      ≤ S * ((runLoop cfl gen tot S B n ck).passesCompleted - n) := by
  intro n ck
  generalize hd : tot - n = d
  induction d using Nat.strong_induction_on generalizing n ck with
  | _ d ih =>
    rw [runLoop]
    cases hg : gen n with
    | none => simp [totalWritten_nil]
    | some b =>
      have hb : b.length = B := hgen n b hg
      have hpass : ((passLoop cfl b S B 0 (ck + 1)).chunks.map List.length).sum ≤ S := by
        have := passLoop_sum_le cfl b S B hb 0 (ck + 1)
        omega
      simp only
      by_cases hc : cfl ck
      · simp [hc, totalWritten_nil]
      · simp only [hc, Bool.false_eq_true, if_false]
        by_cases hcan : (passLoop cfl b S B 0 (ck + 1)).cancelled
        · simp only [hcan, if_pos]
          simp only [totalWritten_cons, totalWritten_nil]
          have h5 : n + 1 - n = 1 := by omega
          simp [h5]
          omega
        · simp only [hcan, Bool.false_eq_true, if_false]
          by_cases hbr : n + 1 ≥ tot
          · rw [dif_pos hbr]
            simp only [totalWritten_cons, totalWritten_nil]
            have h5 : n + 1 - n = 1 := by omega
            simp [h5]
            omega
          · rw [dif_neg hbr]
            simp only [totalWritten_cons]
            have hrec := ih (tot - (n + 1)) (by omega) (n + 1)
              (passLoop cfl b S B 0 (ck + 1)).checks rfl
            have hge := runLoop_passes_ge cfl gen tot S B (n + 1)
              (passLoop cfl b S B 0 (ck + 1)).checks
            set r := runLoop cfl gen tot S B (n + 1) (passLoop cfl b S B 0 (ck + 1)).checks
            have h5 : r.passesCompleted - n = (r.passesCompleted - (n + 1)) + 1 := by
              omega
            rw [h5, Nat.mul_succ]
            omega

theorem runLoop_noCancel_not_observed (gen : Nat → Option ByteStr) (tot S B : Nat) :
    ∀ n ck, (runLoop noCancel gen tot S B n ck).cancelObserved = false := by
  intro n ck
  generalize hd : tot - n = d
  induction d using Nat.strong_induction_on generalizing n ck with
  | _ d ih =>
    rw [runLoop]
    cases hg : gen n with
    | none => simp
    | some b =>
      simp only [noCancel, Bool.false_eq_true, if_false]
      have hcan := passLoop_noCancel_not_cancelled b S B 0 (ck + 1)
      simp only [hcan, Bool.false_eq_true, if_false]
      by_cases hbr : n + 1 ≥ tot
      · rw [dif_pos hbr]
      · rw [dif_neg hbr]
        exact ih (tot - (n + 1)) (by omega) (n + 1)
          (passLoop noCancel b S B 0 (ck + 1)).checks rfl

theorem runLoop_noCancel_passes (gen : Nat → Option ByteStr) (tot S B : Nat) :
    ∀ n ck, n < tot → (∀ k, n ≤ k → k < tot → (gen k).isSome) →
      (runLoop noCancel gen tot S B n ck).passesCompleted = tot := by
  intro n ck
  generalize hd : tot - n = d
  induction d using Nat.strong_induction_on generalizing n ck with
  | _ d ih =>
    intro htot hgen
    rw [runLoop]
    have hsome := hgen n (le_refl n) htot
    cases hg : gen n with
    | none => rw [hg] at hsome; simp at hsome
    | some b =>
      simp only [noCancel, Bool.false_eq_true, if_false]
      have hcan := passLoop_noCancel_not_cancelled b S B 0 (ck + 1)
      simp only [hcan, Bool.false_eq_true, if_false]
      by_cases hbr : n + 1 ≥ tot
      · rw [dif_pos hbr]
        simp only
        omega
      · rw [dif_neg hbr]
        exact ih (tot - (n + 1)) (by omega) (n + 1)
          (passLoop noCancel b S B 0 (ck + 1)).checks rfl (by omega)
          (fun k hk1 hk2 => hgen k (by omega) hk2)

theorem runLoop_noCancel_writes_get (gen : Nat → Option ByteStr) (tot S B : Nat) :
    ∀ n ck j w, (runLoop noCancel gen tot S B n ck).passWrites.get? j = some w →
      ∃ b ck2, gen (n + j) = some b ∧ w = (passLoop noCancel b S B 0 ck2).chunks := by
  intro n ck
  generalize hd : tot - n = d
  induction d using Nat.strong_induction_on generalizing n ck with
  | _ d ih =>
    intro j w hw
    rw [runLoop] at hw
    cases hg : gen n with
    | none => rw [hg] at hw; simp at hw
    | some b =>
      rw [hg] at hw
      simp only [noCancel, Bool.false_eq_true, if_false] at hw
      have hcan := passLoop_noCancel_not_cancelled b S B 0 (ck + 1)
      simp only [hcan, Bool.false_eq_true, if_false] at hw
      by_cases hbr : n + 1 ≥ tot
      · rw [dif_pos hbr] at hw
        simp only at hw
        cases j with
        | zero =>
          simp at hw
          exact ⟨b, ck + 1, by simpa using hg, hw.symm⟩
        | succ j2 => simp at hw
      · rw [dif_neg hbr] at hw
        simp only at hw
        cases j with
        | zero =>
          simp at hw
          exact ⟨b, ck + 1, by simpa using hg, hw.symm⟩
        | succ j2 =>
          simp only [List.get?_cons_succ] at hw
          obtain ⟨b2, ck2, hb2, hw2⟩ := ih (tot - (n + 1)) (by omega) (n + 1)
            (passLoop noCancel b S B 0 (ck + 1)).checks rfl j2 w hw
          exact ⟨b2, ck2, by rw [← hb2]; congr 1; omega, hw2⟩

theorem cumTraceAux_ge (l : List Nat) : ∀ acc y, y ∈ cumTraceAux acc l → acc ≤ y := by
  induction l with
  | nil => intro acc y hy; simp [cumTraceAux] at hy
  | cons x xs ih =>
    intro acc y hy
    simp only [cumTraceAux, List.mem_cons] at hy
    rcases hy with rfl | hy
    · omega
    · have := ih (acc + x) y hy
      omega

theorem cumTraceAux_chain (l : List Nat) : ∀ acc, List.Chain' (· ≤ ·) (cumTraceAux acc l) := by
  induction l with
  | nil => intro acc; simp [cumTraceAux]
  | cons x xs ih =>
    intro acc
    simp only [cumTraceAux]
    rw [List.chain'_cons']
    refine ⟨?_, ih (acc + x)⟩
    intro y hy
    exact cumTraceAux_ge xs (acc + x) y (List.mem_of_mem_head? hy)

theorem cumTraceAux_le (l : List Nat) : ∀ acc y, y ∈ cumTraceAux acc l → y ≤ acc + l.sum := by
  induction l with
  | nil => intro acc y hy; simp [cumTraceAux] at hy
  | cons x xs ih =>
    intro acc y hy
    simp only [cumTraceAux, List.mem_cons] at hy
    rcases hy with rfl | hy
    · simp
    · have := ih (acc + x) y hy
      simp only [List.sum_cons]
      omega

theorem cumTraceAux_getLast (l : List Nat) :
    ∀ acc, (cumTraceAux acc l).getLast?.getD acc = acc + l.sum := by
  induction l with
  | nil => intro acc; simp [cumTraceAux]
  | cons x xs ih =>
    intro acc
    simp only [cumTraceAux, List.sum_cons]
    have h := ih (acc + x)
    cases hxs : cumTraceAux (acc + x) xs with
    | nil =>
      rw [hxs] at h
      simp at h ⊢
      omega
    | cons z zs =>
      rw [hxs] at h
      rw [List.getLast?_cons_cons]
      cases hl : (z :: zs).getLast? with
      | none => simp at hl
      | some v =>
        rw [hl] at h
        simp only [Option.getD_some] at h ⊢
        omega

theorem flag_mono (cfl : Nat → Bool) (hm : ∀ k, cfl k = true → cfl (k + 1) = true) :
    ∀ i j, i ≤ j → cfl i = true → cfl j = true := by
  intro i j hij hi
  induction j, hij using Nat.le_induction with
  | base => exact hi
  | succ j hj ih => exact hm j ih

theorem get_pattern_data_isSome (p : WipePattern) (rnd : RandSrc) (B : Nat) :
    ∀ k, k < get_pass_count p → (get_pattern_data p rnd B k).isSome := by
  have hlist : ∀ (l : List ByteStr) (k : Nat), k < l.length → (l.get? k).isSome = true := by
    intro l k h
    rw [List.get?_eq_get h]
    rfl
  intro k hk
  cases p
  case zero_fill => rfl
  case one_fill => rfl
  case random => rfl
  case nist_clear => rfl
  case dod_3_pass => exact hlist _ k (by simp [get_pass_count] at hk ⊢; omega)
  case dod_7_pass => exact hlist _ k (by simp [get_pass_count] at hk ⊢; omega)
  case nist_purge => exact hlist _ k (by simp [get_pass_count] at hk ⊢; omega)
  case gutmann =>
    exact hlist _ k (by simp [get_pass_count, gutmannPatterns] at hk ⊢; omega)

/-- A fixed concrete entropy source used by the concrete witness runs. -/
def rnd0 : RandSrc := fun _ _ => 0

/-- C1: for every target size `S > 0` and block size `B > 0`, one pass of the
wipe engine's inner write loop (shared by `_perform_wipe` and
`_perform_file_wipe`), fed a block `b` yielded by the pattern generator,
writes exactly `S` bytes in total — no overrun and no shortfall — and the
final chunk of the pass has length `S mod B` when that is nonzero, else
`B` (each `write` call reporting its full chunk length). -/
theorem pass_writes_exactly_target_size (p : WipePattern) (rnd : RandSrc)
    (b : ByteStr) (S B n ck : Nat) (hS : 0 < S) (hB : 0 < B)
    (hb : get_pattern_data p rnd B n = some b) :
    (((passLoop noCancel b S B 0 ck).chunks.map List.length).sum = S) ∧
    (∃ c, (passLoop noCancel b S B 0 ck).chunks.getLast? = some c ∧
      c.length = (if S % B = 0 then B else S % B)) := by
  have hlen : b.length = B := get_pattern_data_length p rnd B n b hb
  rw [passLoop_noCancel_chunks b S B hlen hB 0 ck, Nat.sub_zero]
  exact ⟨tileChunks_sum b S B hlen hB, tileChunks_getLast b S B hlen hB hS⟩

/-- Witness for C1: a concrete pass over 10 bytes with block size 4 writes
chunks of lengths 4, 4, 2. -/
theorem pass_writes_exactly_target_size_witness :
    0 < 10 ∧ 0 < 4 ∧
    get_pattern_data .zero_fill rnd0 4 0 = some (List.replicate 4 0x00) ∧
    ((((passLoop noCancel (List.replicate 4 0x00) 10 4 0 0).chunks.map List.length).sum = 10) ∧
      (∃ c, (passLoop noCancel (List.replicate 4 0x00) 10 4 0 0).chunks.getLast? = some c ∧
        c.length = (if 10 % 4 = 0 then 4 else 10 % 4))) :=
  ⟨by decide, by decide, rfl,
    pass_writes_exactly_target_size .zero_fill rnd0 (List.replicate 4 0x00) 10 4 0 0
      (by decide) (by decide) rfl⟩

theorem wipe_device_noCancel_success (p : WipePattern) (rnd : RandSrc) (S B : Nat) :
    (runLoop noCancel (get_pattern_data p rnd B) (get_pass_count p) S B 0 0).success
      = true := by
  rw [runLoop_success_eq, runLoop_noCancel_not_observed]
  rfl

/-- C4: the engine's declared pass count equals the fixed table —
`zero_fill` 1, `one_fill` 1, `random` 1, `dod_3_pass` 3, `dod_7_pass` 7,
`gutmann` 35, `nist_clear` 1, `nist_purge` 3 — and an uncancelled
`wipe_device` run performs exactly that many passes, stopping at the
declared total even though the single-byte-fill and random generators
would yield further blocks. -/
theorem pass_count_table_and_exact_passes :
    (get_pass_count .zero_fill = 1 ∧ get_pass_count .one_fill = 1 ∧
     get_pass_count .random = 1 ∧ get_pass_count .dod_3_pass = 3 ∧
     get_pass_count .dod_7_pass = 7 ∧ get_pass_count .gutmann = 35 ∧
     get_pass_count .nist_clear = 1 ∧ get_pass_count .nist_purge = 3) ∧
    ∀ (p : WipePattern) (rnd : RandSrc) (path : String) (S B : Nat) (qf fr : Bool),
      (wipe_device true path p rnd S B noCancel qf fr).totalPasses = get_pass_count p ∧
      (wipe_device true path p rnd S B noCancel qf fr).passesCompleted
        = get_pass_count p := by
  refine ⟨⟨rfl, rfl, rfl, rfl, rfl, rfl, rfl, rfl⟩, ?_⟩
  intro p rnd path S B qf fr
  have hpasses : (runLoop noCancel (get_pattern_data p rnd B)
      (get_pass_count p) S B 0 0).passesCompleted = get_pass_count p := by
    apply runLoop_noCancel_passes
    · cases p <;> simp [get_pass_count]
    · intro k _ hk2
      exact get_pattern_data_isSome p rnd B k hk2
  have hs := wipe_device_noCancel_success p rnd S B
  unfold wipe_device
  rw [if_neg (by simp : ¬ (true = false))]
  simp only [hs, noCancel, Bool.not_false, Bool.and_true, if_true]
  by_cases hq : (qf && fr) = true <;> simp [hq, hpasses]

theorem wipe_device_noCancel_passWrites (p : WipePattern) (rnd : RandSrc)
    (path : String) (S B : Nat) (qf fr : Bool) :
    (wipe_device true path p rnd S B noCancel qf fr).passWrites
      = (runLoop noCancel (get_pattern_data p rnd B) (get_pass_count p) S B 0 0).passWrites := by
  have hs := wipe_device_noCancel_success p rnd S B
  unfold wipe_device
  rw [if_neg (by simp : ¬ (true = false))]
  simp only [hs, noCancel, Bool.not_false, Bool.and_true, if_true]
  by_cases hq : (qf && fr) = true <;> simp [hq]

/-- C10: within any pass of an uncancelled `wipe_device` run, every chunk
written is the single block yielded by the pattern generator for that pass,
or a prefix of it for the final truncated chunk — the pass is exactly the
tiling of that one block; consequently for the random-content schemes the
whole target is tiled with one repeated `block_size`-byte random block per
pass, exemplified by the `random` scheme whose single pass writes the one
block drawn at yield 0. -/
theorem pass_tiles_single_generator_block :
    (∀ (p : WipePattern) (rnd : RandSrc) (path : String) (S B : Nat) (qf fr : Bool)
      (j : Nat) (w : List ByteStr), 0 < B →
      (wipe_device true path p rnd S B noCancel qf fr).passWrites.get? j = some w →
      ∃ b, get_pattern_data p rnd B j = some b ∧ w = tileChunks b S B ∧
        ∀ c ∈ w, c = b.take c.length) ∧
    (∀ (rnd : RandSrc) (path : String) (S B : Nat) (qf fr : Bool), 0 < B →
      (wipe_device true path .random rnd S B noCancel qf fr).passWrites
        = [tileChunks (randBlock rnd 0 B) S B]) := by
  constructor
  · intro p rnd path S B qf fr j w hB hw
    rw [wipe_device_noCancel_passWrites] at hw
    obtain ⟨b, ck2, hb, hwchunks⟩ := runLoop_noCancel_writes_get
      (get_pattern_data p rnd B) (get_pass_count p) S B 0 0 j w hw
    have hgenj : get_pattern_data p rnd B j = some b := by simpa using hb
    have hlen := get_pattern_data_length p rnd B j b hgenj
    refine ⟨b, hgenj, ?_, ?_⟩
    · rw [hwchunks, passLoop_noCancel_chunks b S B hlen hB, Nat.sub_zero]
    · intro c hc
      rw [hwchunks, passLoop_noCancel_chunks b S B hlen hB, Nat.sub_zero] at hc
      exact tileChunks_mem b S B hlen hB c hc
  · intro rnd path S B qf fr hB
    have hlen : (randBlock rnd 0 B).length = B := by simp [randBlock]
    rw [wipe_device_noCancel_passWrites, runLoop]
    simp only [get_pattern_data]
    simp only [noCancel, Bool.false_eq_true, if_false]
    simp only [passLoop_noCancel_not_cancelled, Bool.false_eq_true, if_false]
    rw [dif_pos (by decide : 0 + 1 ≥ get_pass_count .random)]
    simp only
    rw [passLoop_noCancel_chunks _ S B hlen hB, Nat.sub_zero]

/-- Witness for C10: a concrete uncancelled `random` run over 10 bytes with
block size 4 writes exactly the tiling of the single random block. -/
theorem pass_tiles_single_generator_block_witness :
    0 < 4 ∧
    (wipe_device true "dev" .random rnd0 10 4 noCancel false false).passWrites
      = [tileChunks (randBlock rnd0 0 4) 10 4] :=
  ⟨by decide,
    pass_tiles_single_generator_block.2 rnd0 "dev" 10 4 false false (by decide)⟩

theorem wipe_device_cancel_branch (path : String) (p : WipePattern) (rnd : RandSrc)
    (S B : Nat) (cfl : Nat → Bool) (qf fr : Bool)
    (hm : ∀ k, cfl k = true → cfl (k + 1) = true)
    (hobs : (runLoop cfl (get_pattern_data p rnd B) (get_pass_count p) S B 0 0).cancelObserved
      = true) :
    (wipe_device true path p rnd S B cfl qf fr).status = .cancelled ∧
    (wipe_device true path p rnd S B cfl qf fr).endTimeSet = true ∧
    (wipe_device true path p rnd S B cfl qf fr).totalBytes = S ∧
    (wipe_device true path p rnd S B cfl qf fr).passesCompleted
      = (runLoop cfl (get_pattern_data p rnd B) (get_pass_count p) S B 0 0).passesCompleted ∧
    (wipe_device true path p rnd S B cfl qf fr).bytesWipedTrace
      = deviceBytesTrace (runLoop cfl (get_pattern_data p rnd B) (get_pass_count p) S B 0 0).passWrites ∧
    (wipe_device true path p rnd S B cfl qf fr).bytesWiped
      = (deviceBytesTrace (runLoop cfl (get_pattern_data p rnd B) (get_pass_count p) S B 0 0).passWrites).getLast?.getD 0 := by
  have hsucc : (runLoop cfl (get_pattern_data p rnd B) (get_pass_count p) S B 0 0).success
      = false := by
    rw [runLoop_success_eq, hobs]
    rfl
  obtain ⟨i, hi, hlt⟩ := runLoop_cancelObserved_flag cfl (get_pattern_data p rnd B)
    (get_pass_count p) S B 0 0 hobs
  have hflag : cfl ((runLoop cfl (get_pattern_data p rnd B) (get_pass_count p) S B 0 0).checks + 1)
      = true := flag_mono cfl hm i _ (by omega) hi
  unfold wipe_device
  rw [if_neg (by simp : ¬ (true = false))]
  simp only [hsucc, Bool.false_and, Bool.false_eq_true, if_false, hflag, if_true]
  simp

/-- C5: if cancellation takes effect during an active device wipe — the
cooperative flag set by `cancel_operation` is observed at a pass boundary
or before a block write, after validation has passed — then the returned
`WipeResult` has terminal status `cancelled` with `end_time` set, at that
point `bytes_wiped ≤ total_bytes * passes_completed`, and the reported
`bytes_wiped` values never decrease afterwards (the reported trace is
non-decreasing and the final value bounds every reported value). -/
theorem cancellation_yields_cancelled_result (path : String) (p : WipePattern)
    (rnd : RandSrc) (S B : Nat) (cfl : Nat → Bool) (qf fr : Bool)
    (hm : ∀ k, cfl k = true → cfl (k + 1) = true)
    (hobs : (wipe_device true path p rnd S B cfl qf fr).cancelObserved = true) :
    (wipe_device true path p rnd S B cfl qf fr).status = .cancelled ∧
    (wipe_device true path p rnd S B cfl qf fr).endTimeSet = true ∧
    (wipe_device true path p rnd S B cfl qf fr).bytesWiped
      ≤ (wipe_device true path p rnd S B cfl qf fr).totalBytes
        * (wipe_device true path p rnd S B cfl qf fr).passesCompleted ∧
    List.Chain' (· ≤ ·) (wipe_device true path p rnd S B cfl qf fr).bytesWipedTrace ∧
    ∀ x ∈ (wipe_device true path p rnd S B cfl qf fr).bytesWipedTrace,
      x ≤ (wipe_device true path p rnd S B cfl qf fr).bytesWiped := by
  have hobs0 : (runLoop cfl (get_pattern_data p rnd B) (get_pass_count p) S B 0 0).cancelObserved
      = true := by
    have : (wipe_device true path p rnd S B cfl qf fr).cancelObserved
        = (runLoop cfl (get_pattern_data p rnd B) (get_pass_count p) S B 0 0).cancelObserved := by
      unfold wipe_device
      rw [if_neg (by simp : ¬ (true = false))]
      by_cases h1 : ((runLoop cfl (get_pattern_data p rnd B) (get_pass_count p) S B 0 0).success
          && !(cfl (runLoop cfl (get_pattern_data p rnd B) (get_pass_count p) S B 0 0).checks)) = true
      · rw [if_pos h1]
        by_cases h2 : (qf && fr) = true
        · rw [if_pos h2]
        · rw [if_neg h2]
      · rw [if_neg h1]
        by_cases h3 : cfl ((runLoop cfl (get_pattern_data p rnd B) (get_pass_count p) S B 0 0).checks + 1) = true
        · rw [if_pos h3]
        · rw [if_neg h3]
    rw [← this]
    exact hobs
  obtain ⟨hst, het, htb, hpc, htr, hbw⟩ :=
    wipe_device_cancel_branch path p rnd S B cfl qf fr hm hobs0
  refine ⟨hst, het, ?_, ?_, ?_⟩
  · rw [hbw, htb, hpc]
    unfold deviceBytesTrace
    rw [cumTraceAux_getLast]
    have hsum := runLoop_sum_le cfl (get_pattern_data p rnd B) (get_pass_count p) S B
      (fun k b hkb => get_pattern_data_length p rnd B k b hkb) 0 0
    unfold totalWritten at hsum
    rw [Nat.sub_zero] at hsum
    omega
  · rw [htr]
    exact cumTraceAux_chain _ _
  · intro x hx
    rw [htr] at hx
    rw [hbw]
    unfold deviceBytesTrace at hx ⊢
    rw [cumTraceAux_getLast]
    have := cumTraceAux_le _ 0 x hx
    omega

/-- A concrete cancellation flag: set from the second read onwards. -/
def cflOne : Nat → Bool := fun k => decide (1 ≤ k)

theorem cflOne_mono : ∀ k, cflOne k = true → cflOne (k + 1) = true := by
  intro k hk
  simp [cflOne]

/-- Witness for C5: a concrete run with the flag set after the first check
is observed cancelled and satisfies the cancellation properties. -/
theorem cancellation_yields_cancelled_result_witness :
    (∀ k, cflOne k = true → cflOne (k + 1) = true) ∧
    (wipe_device true "dev" .zero_fill rnd0 5 2 cflOne false false).cancelObserved = true ∧
    ((wipe_device true "dev" .zero_fill rnd0 5 2 cflOne false false).status = .cancelled ∧
     (wipe_device true "dev" .zero_fill rnd0 5 2 cflOne false false).endTimeSet = true ∧
     (wipe_device true "dev" .zero_fill rnd0 5 2 cflOne false false).bytesWiped
       ≤ (wipe_device true "dev" .zero_fill rnd0 5 2 cflOne false false).totalBytes
         * (wipe_device true "dev" .zero_fill rnd0 5 2 cflOne false false).passesCompleted ∧
     List.Chain' (· ≤ ·) (wipe_device true "dev" .zero_fill rnd0 5 2 cflOne false false).bytesWipedTrace ∧
     ∀ x ∈ (wipe_device true "dev" .zero_fill rnd0 5 2 cflOne false false).bytesWipedTrace,
       x ≤ (wipe_device true "dev" .zero_fill rnd0 5 2 cflOne false false).bytesWiped) :=
  ⟨cflOne_mono,
    by simp [wipe_device, runLoop, passLoop, writeChunk, cflOne, get_pattern_data,
      get_pass_count],
    cancellation_yields_cancelled_result "dev" .zero_fill rnd0 5 2 cflOne false false
      cflOne_mono
      (by simp [wipe_device, runLoop, passLoop, writeChunk, cflOne, get_pattern_data,
        get_pass_count])⟩

/-- C8: when the target is not reachable (the `_validate_device` probe —
exists, opens, reads — fails, which in particular happens whenever the
target is unreachable for both read and write), the wipe fails naming the
target — the repository realizes the spec's `TargetUnavailableError` as a
`failed` result whose `error_message` is
`"Invalid or inaccessible device: {path}"` — the failure is detected
before any byte is written, and no write is performed. -/
theorem unavailable_target_fails_before_write :
    ∀ (path : String) (p : WipePattern) (rnd : RandSrc) (S B : Nat)
      (cfl : Nat → Bool) (qf fr : Bool),
      (wipe_device false path p rnd S B cfl qf fr).status = .failed ∧
      (wipe_device false path p rnd S B cfl qf fr).errorMessage
        = some ("Invalid or inaccessible device: " ++ path) ∧
      (wipe_device false path p rnd S B cfl qf fr).passWrites = [] ∧
      (wipe_device false path p rnd S B cfl qf fr).bytesWipedTrace = [] ∧
      (wipe_device false path p rnd S B cfl qf fr).statusTrace
        = [.pending, .failed] := by
  intro path p rnd S B cfl qf fr
  unfold wipe_device
  simp

theorem wipe_device_trace_structure (valid : Bool) (path : String) (p : WipePattern)
    (rnd : RandSrc) (S B : Nat) (cfl : Nat → Bool) (qf fr : Bool) :
    (wipe_device valid path p rnd S B cfl qf fr).bytesWipedTrace
      = deviceBytesTrace (wipe_device valid path p rnd S B cfl qf fr).passWrites := by
  unfold wipe_device
  by_cases hv : valid = false
  · rw [if_pos hv]
    simp [deviceBytesTrace, cumTraceAux]
  · rw [if_neg hv]
    by_cases h1 : ((runLoop cfl (get_pattern_data p rnd B) (get_pass_count p) S B 0 0).success
        && !(cfl (runLoop cfl (get_pattern_data p rnd B) (get_pass_count p) S B 0 0).checks)) = true
    · rw [if_pos h1]
      by_cases h2 : (qf && fr) = true
      · rw [if_pos h2]
      · rw [if_neg h2]
    · rw [if_neg h1]
      by_cases h3 : cfl ((runLoop cfl (get_pattern_data p rnd B) (get_pass_count p) S B 0 0).checks + 1) = true
      · rw [if_pos h3]
      · rw [if_neg h3]

theorem wipe_file_trace_structure (fe : Bool) (path : String) (p : WipePattern)
    (rnd : RandSrc) (S B : Nat) (cfl : Nat → Bool) (rm rr : Bool) :
    (wipe_file fe path p rnd S B cfl rm rr).bytesWipedTrace
      = fileBytesTrace (wipe_file fe path p rnd S B cfl rm rr).passWrites := by
  unfold wipe_file
  by_cases hv : fe = false
  · rw [if_pos hv]
    simp [fileBytesTrace]
  · rw [if_neg hv]
    by_cases h1 : ((runLoop cfl (get_pattern_data p rnd B) (get_pass_count p) S B 0 0).success
        && !(cfl (runLoop cfl (get_pattern_data p rnd B) (get_pass_count p) S B 0 0).checks)) = true
    · rw [if_pos h1]
      by_cases h2 : (rm && rr) = true
      · rw [if_pos h2]
      · rw [if_neg h2]
    · rw [if_neg h1]
      by_cases h3 : cfl ((runLoop cfl (get_pattern_data p rnd B) (get_pass_count p) S B 0 0).checks + 1) = true
      · rw [if_pos h3]
      · rw [if_neg h3]

/-- C6 counterexample: the claim fails on `wipe_file`. Wiping a 2-byte file
with `dod_3_pass` and block size 1 reports the `bytes_wiped` values
1, 2, 1, 2, 1, 2 — the per-pass counter assigned by `_perform_file_wipe`
resets at the start of passes 2 and 3, so the externally reported value
decreases from 2 to 1 and the trace is not monotonically non-decreasing. -/
theorem bytes_wiped_decreases_in_file_wipe :
    (wipe_file true "f" .dod_3_pass rnd0 2 1 noCancel false false).bytesWipedTrace
      = [1, 2, 1, 2, 1, 2] ∧
    ¬ List.Chain' (· ≤ ·)
      (wipe_file true "f" .dod_3_pass rnd0 2 1 noCancel false false).bytesWipedTrace := by
  have h : (wipe_file true "f" .dod_3_pass rnd0 2 1 noCancel false false).bytesWipedTrace
      = [1, 2, 1, 2, 1, 2] := by
    simp [wipe_file, runLoop, passLoop, writeChunk, noCancel, get_pattern_data,
      get_pass_count, fileBytesTrace, cumTraceAux, rnd0, randBlock]
  refine ⟨h, ?_⟩
  rw [h]
  intro hch
  rw [List.chain'_cons, List.chain'_cons] at hch
  obtain ⟨h1, h2, _⟩ := hch
  omega

/-- C6 amended: the `bytes_wiped` reported by `wipe_device` is the cumulative
counter and is monotonically non-decreasing over the whole operation; the
`bytes_wiped` reported by `wipe_file` is the per-pass counter, which resets
to 0 at the start of every pass, so it is non-decreasing only within each
pass (the reported trace is the concatenation of the per-pass cumulative
segments, each segment non-decreasing). -/
theorem bytes_wiped_monotone_amended :
    (∀ (valid : Bool) (path : String) (p : WipePattern) (rnd : RandSrc) (S B : Nat)
      (cfl : Nat → Bool) (qf fr : Bool),
      List.Chain' (· ≤ ·) (wipe_device valid path p rnd S B cfl qf fr).bytesWipedTrace) ∧
    (∀ (fe : Bool) (path : String) (p : WipePattern) (rnd : RandSrc) (S B : Nat)
      (cfl : Nat → Bool) (rm rr : Bool),
      (wipe_file fe path p rnd S B cfl rm rr).bytesWipedTrace
        = ((wipe_file fe path p rnd S B cfl rm rr).passWrites.map
            (fun pass => cumTraceAux 0 (pass.map List.length))).flatten ∧
      ∀ seg ∈ (wipe_file fe path p rnd S B cfl rm rr).passWrites,
        List.Chain' (· ≤ ·) (cumTraceAux 0 (seg.map List.length))) := by
  constructor
  · intro valid path p rnd S B cfl qf fr
    rw [wipe_device_trace_structure]
    exact cumTraceAux_chain _ _
  · intro fe path p rnd S B cfl rm rr
    refine ⟨wipe_file_trace_structure fe path p rnd S B cfl rm rr, ?_⟩
    intro seg _
    exact cumTraceAux_chain _ _

/-- Witness for the amended C6: a concrete pass of the concrete file run is
a member of its pass writes and its reported segment is non-decreasing. -/
theorem bytes_wiped_monotone_amended_witness :
    [[0], [0]] ∈ (wipe_file true "f" .dod_3_pass rnd0 2 1 noCancel false false).passWrites ∧
    List.Chain' (· ≤ ·) (cumTraceAux 0 ([[0], [0]].map List.length)) :=
  ⟨by simp [wipe_file, runLoop, passLoop, writeChunk, noCancel, get_pattern_data,
      get_pass_count, rnd0, randBlock],
    (bytes_wiped_monotone_amended.2 true "f" .dod_3_pass rnd0 2 1 noCancel false false).2
      [[0], [0]]
      (by simp [wipe_file, runLoop, passLoop, writeChunk, noCancel, get_pattern_data,
        get_pass_count, rnd0, randBlock])⟩

/-- The transition relation asserted by the specification's state machine:
`pending → in_progress → \x7bcompleted, failed, cancelled\x7d`. -/
def claimedTransition : WipeStatus → WipeStatus → Bool
  | .pending, .in_progress => true
  | .in_progress, .completed => true
  | .in_progress, .failed => true
  | .in_progress, .cancelled => true
  | _, _ => false

/-- The transition relation the code actually realizes: additionally
`pending → failed` (validation / existence check fails before the engine
starts) and `completed → failed` (an exception raised by a post-completion
step — quick-format or file removal — is caught and the status
overwritten). -/
def codeTransition : WipeStatus → WipeStatus → Bool
  | .pending, .in_progress => true
  | .pending, .failed => true
  | .in_progress, .completed => true
  | .in_progress, .failed => true
  | .in_progress, .cancelled => true
  | .completed, .failed => true
  | _, _ => false

/-- Every adjacent pair of a status trace satisfies the given transition
relation. -/
def chainOk (f : WipeStatus → WipeStatus → Bool) : List WipeStatus → Bool
  | [] => true
  | [_] => true
  | a :: b :: rest => f a b && chainOk f (b :: rest)

def isTerminal : WipeStatus → Bool
  | .completed => true
  | .failed => true
  | .cancelled => true
  | _ => false

/-- Once a terminal status appears in the trace, every later entry equals it. -/
def terminalPreserved : List WipeStatus → Bool
  | [] => true
  | [_] => true
  | a :: b :: rest => (!(isTerminal a) || decide (a = b)) && terminalPreserved (b :: rest)

theorem wipe_device_statusTrace_cases (valid : Bool) (path : String) (p : WipePattern)
    (rnd : RandSrc) (S B : Nat) (cfl : Nat → Bool) (qf fr : Bool) :
    (wipe_device valid path p rnd S B cfl qf fr).statusTrace = [.pending, .failed] ∨
    (wipe_device valid path p rnd S B cfl qf fr).statusTrace
      = [.pending, .in_progress, .completed] ∨
    ((qf && fr) = true ∧ (wipe_device valid path p rnd S B cfl qf fr).statusTrace
      = [.pending, .in_progress, .completed, .failed]) ∨
    (wipe_device valid path p rnd S B cfl qf fr).statusTrace
      = [.pending, .in_progress, .cancelled] ∨
    (wipe_device valid path p rnd S B cfl qf fr).statusTrace
      = [.pending, .in_progress, .failed] := by
  unfold wipe_device
  by_cases hv : valid = false
  · rw [if_pos hv]
    left
    rfl
  · rw [if_neg hv]
    by_cases h1 : ((runLoop cfl (get_pattern_data p rnd B) (get_pass_count p) S B 0 0).success
        && !(cfl (runLoop cfl (get_pattern_data p rnd B) (get_pass_count p) S B 0 0).checks)) = true
    · rw [if_pos h1]
      by_cases h2 : (qf && fr) = true
      · rw [if_pos h2]
        right; right; left
        exact ⟨h2, rfl⟩
      · rw [if_neg h2]
        right; left
        rfl
    · rw [if_neg h1]
      by_cases h3 : cfl ((runLoop cfl (get_pattern_data p rnd B) (get_pass_count p) S B 0 0).checks + 1) = true
      · rw [if_pos h3]
        right; right; right; left
        rfl
      · rw [if_neg h3]
        right; right; right; right
        rfl

theorem wipe_file_statusTrace_cases (fe : Bool) (path : String) (p : WipePattern)
    (rnd : RandSrc) (S B : Nat) (cfl : Nat → Bool) (rm rr : Bool) :
    (wipe_file fe path p rnd S B cfl rm rr).statusTrace = [.pending, .failed] ∨
    (wipe_file fe path p rnd S B cfl rm rr).statusTrace
      = [.pending, .in_progress, .completed] ∨
    ((rm && rr) = true ∧ (wipe_file fe path p rnd S B cfl rm rr).statusTrace
      = [.pending, .in_progress, .completed, .failed]) ∨
    (wipe_file fe path p rnd S B cfl rm rr).statusTrace
      = [.pending, .in_progress, .cancelled] ∨
    (wipe_file fe path p rnd S B cfl rm rr).statusTrace
      = [.pending, .in_progress, .failed] := by
  unfold wipe_file
  by_cases hv : fe = false
  · rw [if_pos hv]
    left
    rfl
  · rw [if_neg hv]
    by_cases h1 : ((runLoop cfl (get_pattern_data p rnd B) (get_pass_count p) S B 0 0).success
        && !(cfl (runLoop cfl (get_pattern_data p rnd B) (get_pass_count p) S B 0 0).checks)) = true
    · rw [if_pos h1]
      by_cases h2 : (rm && rr) = true
      · rw [if_pos h2]
        right; right; left
        exact ⟨h2, rfl⟩
      · rw [if_neg h2]
        right; left
        rfl
    · rw [if_neg h1]
      by_cases h3 : cfl ((runLoop cfl (get_pattern_data p rnd B) (get_pass_count p) S B 0 0).checks + 1) = true
      · rw [if_pos h3]
        right; right; right; left
        rfl
      · rw [if_neg h3]
        right; right; right; right
        rfl

/-- C7 counterexample: the claim fails on the code.  Wiping a 1-byte file
with `remove_file = true` while `os.remove` raises produces the status
assignments `pending, in_progress, completed, failed`: the terminal status
`completed` is overwritten with `failed` by the `except` clause, so the
trace leaves a terminal state and uses a transition (`completed → failed`)
outside the claimed state machine. -/
theorem terminal_status_overwritten_counterexample :
    (wipe_file true "f" .zero_fill rnd0 1 1 noCancel true true).statusTrace
      = [.pending, .in_progress, .completed, .failed] ∧
    terminalPreserved (wipe_file true "f" .zero_fill rnd0 1 1 noCancel true true).statusTrace
      = false ∧
    chainOk claimedTransition
      (wipe_file true "f" .zero_fill rnd0 1 1 noCancel true true).statusTrace = false := by
  have h : (wipe_file true "f" .zero_fill rnd0 1 1 noCancel true true).statusTrace
      = [.pending, .in_progress, .completed, .failed] := by
    simp [wipe_file, runLoop, passLoop, writeChunk, noCancel, get_pattern_data,
      get_pass_count]
  refine ⟨h, ?_, ?_⟩ <;> rw [h] <;> decide

/-- C7 amended: every status assignment sequence of `wipe_device` and
`wipe_file` follows `pending → in_progress → \x7bcompleted, failed, cancelled\x7d`
extended with `pending → failed` (validation failure) and
`completed → failed` (a post-completion step — quick-format in
`wipe_device`, file removal in `wipe_file` — raising an exception); when no
post-completion step raises, a terminal status, once set, is never left. -/
theorem terminal_status_amended (valid fe : Bool) (dpath fpath : String)
    (p q : WipePattern) (rnd rnd2 : RandSrc) (S B S2 B2 : Nat)
    (cfl cfl2 : Nat → Bool) (qf fr rm rr : Bool) :
    (chainOk codeTransition (wipe_device valid dpath p rnd S B cfl qf fr).statusTrace = true ∧
      ((qf && fr) = false →
        terminalPreserved (wipe_device valid dpath p rnd S B cfl qf fr).statusTrace = true)) ∧
    (chainOk codeTransition (wipe_file fe fpath q rnd2 S2 B2 cfl2 rm rr).statusTrace = true ∧
      ((rm && rr) = false →
        terminalPreserved (wipe_file fe fpath q rnd2 S2 B2 cfl2 rm rr).statusTrace = true)) := by
  constructor
  · rcases wipe_device_statusTrace_cases valid dpath p rnd S B cfl qf fr with
      h | h | ⟨hq, h⟩ | h | h <;> rw [h] <;>
      first
        | exact ⟨by decide, fun _ => by decide⟩
        | exact ⟨by decide, fun hc => absurd hq (by rw [hc]; decide)⟩
  · rcases wipe_file_statusTrace_cases fe fpath q rnd2 S2 B2 cfl2 rm rr with
      h | h | ⟨hq, h⟩ | h | h <;> rw [h] <;>
      first
        | exact ⟨by decide, fun _ => by decide⟩
        | exact ⟨by decide, fun hc => absurd hq (by rw [hc]; decide)⟩

/-- Witness for the amended C7: the concrete runs with no raising
post-completion step follow the code's transition relation and preserve
terminal statuses. -/
theorem terminal_status_amended_witness :
    chainOk codeTransition
      (wipe_device true "d" .zero_fill rnd0 1 1 noCancel false false).statusTrace = true ∧
    terminalPreserved
      (wipe_device true "d" .zero_fill rnd0 1 1 noCancel false false).statusTrace = true :=
  ⟨(terminal_status_amended true true "d" "f" .zero_fill .zero_fill rnd0 rnd0 1 1 1 1
      noCancel noCancel false false false false).1.1,
    (terminal_status_amended true true "d" "f" .zero_fill .zero_fill rnd0 rnd0 1 1 1 1
      noCancel noCancel false false false false).1.2 rfl⟩

/-- Model of the `WipeResult` fields read by `generate_certificate`.
`datetime` values are modelled as integer epoch seconds whose `isoformat`
rendering is their decimal string; `duration` (a float in the source) is
modelled as the exact integer difference. -/
structure WipeResultM where
  device_path : String
  pattern : WipePattern
  status : WipeStatus
  start_time : Int
  end_time : Option Int
  bytes_wiped : Nat
  total_bytes : Nat
  passes_completed : Nat
  total_passes : Nat
  error_message : Option String
  verification_hash : Option String
  deriving DecidableEq, Repr

/-- The `duration` property of `WipeResult`: `end - start` in seconds when
both timestamps are present, else `0`. -/
def WipeResultM.duration (r : WipeResultM) : Int :=
  match r.end_time with
  | some e => e - r.start_time
  | none => 0

/-- `WipeCertificate` from `src/bitwipers/crypto/certificate.py`, field for
field. -/
structure WipeCertificate where
  certificate_id : String
  device_path : String
  device_serial : Option String
  device_model : Option String
  device_size_bytes : Nat
  wipe_pattern : String
  wipe_start_time : String
  wipe_end_time : String
  wipe_duration_seconds : Int
  bytes_wiped : Nat
  passes_completed : Nat
  verification_hash : Option String
  status : String
  operator : String
  organization : String
  nist_compliance : String
  certificate_hash : String
  digital_signature : String
  created_at : String
  version : String
  deriving DecidableEq, Repr

/-- The certificate fields that are hashed: every field except
`certificate_hash` and `digital_signature`, which both `generate_certificate`
and `verify_certificate` pop from the dictionary before serializing. -/
structure CertPayload where
  certificate_id : String
  device_path : String
  device_serial : Option String
  device_model : Option String
  device_size_bytes : Nat
  wipe_pattern : String
  wipe_start_time : String
  wipe_end_time : String
  wipe_duration_seconds : Int
  bytes_wiped : Nat
  passes_completed : Nat
  verification_hash : Option String
  status : String
  operator : String
  organization : String
  nist_compliance : String
  created_at : String
  version : String
  deriving DecidableEq, Repr

/-- `cert_dict` with `certificate_hash` and `digital_signature` popped. -/
def certPayload (c : WipeCertificate) : CertPayload :=
  { certificate_id := c.certificate_id
    device_path := c.device_path
    device_serial := c.device_serial
    device_model := c.device_model
    device_size_bytes := c.device_size_bytes
    wipe_pattern := c.wipe_pattern
    wipe_start_time := c.wipe_start_time
    wipe_end_time := c.wipe_end_time
    wipe_duration_seconds := c.wipe_duration_seconds
    bytes_wiped := c.bytes_wiped
    passes_completed := c.passes_completed
    verification_hash := c.verification_hash
    status := c.status
    operator := c.operator
    organization := c.organization
    nist_compliance := c.nist_compliance
    created_at := c.created_at
    version := c.version }

/-- Model of one `CertificateGenerator` instance: its `organization` and
`operator` strings, and the cryptographic boundary it holds.
`hashPayload` models
`hashlib.sha256(json.dumps(cert_dict, sort_keys=True).encode()).hexdigest()`
applied to the popped dictionary; `sign` models RSA-PSS signing of the
hash's textual encoding followed by `.hex()`; `verifySig sig msg` models
`bytes.fromhex(sig)` followed by the public-key verification of
`msg.encode()` (returning `False` on any exception). -/
structure CertificateGenerator where
  organization : String
  operator : String
  hashPayload : CertPayload → String
  sign : String → String
  verifySig : String → String → Bool

/-- `device_info.get(...)` on the optional device-info dictionary. -/
structure DeviceInfo where
  serial_number : Option String
  model : Option String
  deriving DecidableEq, Repr

/-- The certificate record built by `generate_certificate` before the hash
and signature are filled in (`certificate_hash = ""`,
`digital_signature = ""`).  `nowStamp` and `randomPart` are the timestamp
and random components of `_generate_certificate_id`; `createdAt` is
`datetime.now(timezone.utc).isoformat()`. -/
def buildCertData (g : CertificateGenerator) (wipe_result : WipeResultM)
    (device_info : Option DeviceInfo) (nowStamp randomPart createdAt : String) :
    WipeCertificate :=
  { certificate_id := "BW-" ++ nowStamp ++ "-" ++ randomPart
    device_path := wipe_result.device_path
    device_serial := match device_info with
      | none => none
      | some i => i.serial_number
    device_model := match device_info with
      | none => none
      | some i => i.model
    device_size_bytes := wipe_result.total_bytes
    wipe_pattern := wipe_result.pattern.value
    wipe_start_time := toString wipe_result.start_time
    wipe_end_time := match wipe_result.end_time with
      | some e => toString e
      | none => ""
    wipe_duration_seconds := wipe_result.duration
    bytes_wiped := wipe_result.bytes_wiped
    passes_completed := wipe_result.passes_completed
    verification_hash := wipe_result.verification_hash
    status := wipe_result.status.value
    operator := g.operator
    organization := g.organization
    nist_compliance := "NIST SP 800-88 Rev. 1"
    certificate_hash := ""
    digital_signature := ""
    created_at := createdAt
    version := "1.0" }

/-- `CertificateGenerator.generate_certificate`: builds the certificate
record, hashes the canonical serialization of every field except the two
signature-bearing ones, stores the hash, signs the hash's textual encoding
and stores the signature.  Note the source performs no check of
`wipe_result.status`. -/
def generate_certificate (g : CertificateGenerator) (wipe_result : WipeResultM)
    (device_info : Option DeviceInfo) (nowStamp randomPart createdAt : String) :
    WipeCertificate :=
  let cert_data := buildCertData g wipe_result device_info nowStamp randomPart createdAt
  let cert_hash := g.hashPayload (certPayload cert_data)
  { cert_data with
    certificate_hash := cert_hash,
    digital_signature := g.sign cert_hash }

/-- `CertificateGenerator.verify_certificate`: recompute the canonical hash
with the two signature-bearing fields popped; fail closed if it disagrees
with the stored `certificate_hash`, else verify the stored signature
against the recomputed hash. -/
def verify_certificate (g : CertificateGenerator) (c : WipeCertificate) : Bool :=
  let original_hash := c.certificate_hash
  let original_signature := c.digital_signature
  let expected_hash := g.hashPayload (certPayload c)
  if original_hash ≠ expected_hash then false
  else g.verifySig original_signature expected_hash

theorem certPayload_generate (g : CertificateGenerator) (r : WipeResultM)
    (info : Option DeviceInfo) (ns rp ca : String) :
    certPayload (generate_certificate g r info ns rp ca)
      = certPayload (buildCertData g r info ns rp ca) := rfl

theorem generate_hash_eq (g : CertificateGenerator) (r : WipeResultM)
    (info : Option DeviceInfo) (ns rp ca : String) :
    (generate_certificate g r info ns rp ca).certificate_hash
      = g.hashPayload (certPayload (generate_certificate g r info ns rp ca)) := rfl

theorem generate_sig_eq (g : CertificateGenerator) (r : WipeResultM)
    (info : Option DeviceInfo) (ns rp ca : String) :
    (generate_certificate g r info ns rp ca).digital_signature
      = g.sign (generate_certificate g r info ns rp ca).certificate_hash := rfl

/-- C2: for every `WipeResult` with terminal status `completed` and a set
`end_time`, issuing a certificate and verifying it with the same
`CertificateGenerator` returns `true`, for any optional device info —
given the correctness of the held signature scheme (a signature produced
by `sign` verifies against its message, which is what RSA-PSS guarantees
for the key pair the instance holds). -/
theorem certificate_roundtrip_verifies (g : CertificateGenerator) (r : WipeResultM)
    (info : Option DeviceInfo) (ns rp ca : String)
    (hsig : ∀ m, g.verifySig (g.sign m) m = true)
    (hstatus : r.status = .completed) (hend : r.end_time ≠ none) :
    verify_certificate g (generate_certificate g r info ns rp ca) = true := by
  unfold verify_certificate
  rw [certPayload_generate, ← certPayload_generate g r info ns rp ca,
    ← generate_hash_eq g r info ns rp ca]
  rw [if_neg (by simp)]
  rw [generate_sig_eq, generate_hash_eq]
  exact hsig _

/-- A concrete `CertificateGenerator` whose signature boundary is the
identity scheme and whose hash marks the reference payload. -/
def trivialGen : CertificateGenerator :=
  { organization := "Ministry of Mines - JNARDDC"
    operator := "BitWipers System"
    hashPayload := fun _ => ""
    sign := id
    verifySig := fun s m => decide (s = m) }

/-- A concrete terminal `completed` result. -/
def completedResult : WipeResultM :=
  { device_path := "/dev/sdz"
    pattern := .nist_clear
    status := .completed
    start_time := 100
    end_time := some 160
    bytes_wiped := 4096
    total_bytes := 4096
    passes_completed := 1
    total_passes := 1
    error_message := none
    verification_hash := some "abc" }

/-- Witness for C2: the concrete round trip verifies. -/
theorem certificate_roundtrip_verifies_witness :
    (∀ m, trivialGen.verifySig (trivialGen.sign m) m = true) ∧
    completedResult.status = .completed ∧ completedResult.end_time ≠ none ∧
    verify_certificate trivialGen
      (generate_certificate trivialGen completedResult none "ts" "rp" "ca") = true :=
  ⟨fun m => by simp [trivialGen], rfl, by simp [completedResult],
    certificate_roundtrip_verifies trivialGen completedResult none "ts" "rp" "ca"
      (fun m => by simp [trivialGen]) rfl (by simp [completedResult])⟩

theorem cert_ext (c c2 : WipeCertificate) (hp : certPayload c2 = certPayload c)
    (hh : c2.certificate_hash = c.certificate_hash)
    (hs : c2.digital_signature = c.digital_signature) : c2 = c := by
  cases c
  cases c2
  simp only [certPayload, CertPayload.mk.injEq] at hp
  simp only at hh hs
  simp_all

theorem verify_mutated (g : CertificateGenerator) (c c2 : WipeCertificate)
    (hhash : c.certificate_hash = g.hashPayload (certPayload c))
    (hsig : c.digital_signature = g.sign c.certificate_hash)
    (hsec : ∀ p2, p2 ≠ certPayload c →
      g.hashPayload p2 ≠ g.hashPayload (certPayload c))
    (hsound : ∀ s m, g.verifySig s m = true → s = g.sign m)
    (hne : c2 ≠ c)
    (hcase : certPayload c2 = certPayload c ∨
      (c2.certificate_hash = c.certificate_hash ∧
        c2.digital_signature = c.digital_signature)) :
    verify_certificate g c2 = false := by
  unfold verify_certificate
  rcases hcase with hpay | ⟨hh, hs⟩
  · rw [hpay]
    by_cases hh : c2.certificate_hash = c.certificate_hash
    · have hsne : c2.digital_signature ≠ c.digital_signature := by
        intro heq
        exact hne (cert_ext c c2 hpay hh heq)
      rw [if_neg (by rw [hh, hhash]; simp)]
      cases hv : g.verifySig c2.digital_signature (g.hashPayload (certPayload c))
      · rfl
      · exact absurd (by rw [hsound _ _ hv, ← hhash, ← hsig]) hsne
    · rw [if_pos]
      exact fun heq => hh (heq.trans hhash.symm)
  · have hpne : certPayload c2 ≠ certPayload c := by
      intro heq
      exact hne (cert_ext c c2 heq hh hs)
    rw [if_pos]
    rw [hh, hhash]
    exact (hsec (certPayload c2) hpne).symm

/-- `c2` is `c` with the value of exactly one field changed. -/
def MutatesOneField (c c2 : WipeCertificate) : Prop :=
  (∃ v, v ≠ c.certificate_id ∧ c2 = { c with certificate_id := v }) ∨
  (∃ v, v ≠ c.device_path ∧ c2 = { c with device_path := v }) ∨
  (∃ v, v ≠ c.device_serial ∧ c2 = { c with device_serial := v }) ∨
  (∃ v, v ≠ c.device_model ∧ c2 = { c with device_model := v }) ∨
  (∃ v, v ≠ c.device_size_bytes ∧ c2 = { c with device_size_bytes := v }) ∨
  (∃ v, v ≠ c.wipe_pattern ∧ c2 = { c with wipe_pattern := v }) ∨
  (∃ v, v ≠ c.wipe_start_time ∧ c2 = { c with wipe_start_time := v }) ∨
  (∃ v, v ≠ c.wipe_end_time ∧ c2 = { c with wipe_end_time := v }) ∨
  (∃ v, v ≠ c.wipe_duration_seconds ∧ c2 = { c with wipe_duration_seconds := v }) ∨
  (∃ v, v ≠ c.bytes_wiped ∧ c2 = { c with bytes_wiped := v }) ∨
  (∃ v, v ≠ c.passes_completed ∧ c2 = { c with passes_completed := v }) ∨
  (∃ v, v ≠ c.verification_hash ∧ c2 = { c with verification_hash := v }) ∨
  (∃ v, v ≠ c.status ∧ c2 = { c with status := v }) ∨
  (∃ v, v ≠ c.operator ∧ c2 = { c with operator := v }) ∨
  (∃ v, v ≠ c.organization ∧ c2 = { c with organization := v }) ∨
  (∃ v, v ≠ c.nist_compliance ∧ c2 = { c with nist_compliance := v }) ∨
  (∃ v, v ≠ c.certificate_hash ∧ c2 = { c with certificate_hash := v }) ∨
  (∃ v, v ≠ c.digital_signature ∧ c2 = { c with digital_signature := v }) ∨
  (∃ v, v ≠ c.created_at ∧ c2 = { c with created_at := v }) ∨
  (∃ v, v ≠ c.version ∧ c2 = { c with version := v })

/-- C3: changing the value of any single field of an issued certificate —
any field, including `certificate_hash` and `digital_signature` themselves
— makes `verify_certificate` return `false`: `certificate_hash` commits to
every field except itself and `digital_signature`, and `digital_signature`
signs the hash's textual encoding.  The hypotheses idealize the
cryptographic boundary: no second payload collides with the issued
certificate's hash (collision resistance of SHA-256 over the canonical
key-sorted serialization, which is injective on the fixed field set), and
a signature verifies only if it is the signature of the message
(unforgeability; the randomized-salt freedom of PSS is idealized away). -/
theorem certificate_tamper_detected (g : CertificateGenerator) (r : WipeResultM)
    (info : Option DeviceInfo) (ns rp ca : String) (c2 : WipeCertificate)
    (hsec : ∀ p2, p2 ≠ certPayload (generate_certificate g r info ns rp ca) →
      g.hashPayload p2 ≠ g.hashPayload (certPayload (generate_certificate g r info ns rp ca)))
    (hsound : ∀ s m, g.verifySig s m = true → s = g.sign m)
    (hmut : MutatesOneField (generate_certificate g r info ns rp ca) c2) :
    verify_certificate g c2 = false := by
  rcases hmut with ⟨v, hv, rfl⟩ | ⟨v, hv, rfl⟩ | ⟨v, hv, rfl⟩ | ⟨v, hv, rfl⟩ |
    ⟨v, hv, rfl⟩ | ⟨v, hv, rfl⟩ | ⟨v, hv, rfl⟩ | ⟨v, hv, rfl⟩ | ⟨v, hv, rfl⟩ |
    ⟨v, hv, rfl⟩ | ⟨v, hv, rfl⟩ | ⟨v, hv, rfl⟩ | ⟨v, hv, rfl⟩ | ⟨v, hv, rfl⟩ |
    ⟨v, hv, rfl⟩ | ⟨v, hv, rfl⟩ | ⟨v, hv, rfl⟩ | ⟨v, hv, rfl⟩ | ⟨v, hv, rfl⟩ |
    ⟨v, hv, rfl⟩ <;>
  refine verify_mutated g (generate_certificate g r info ns rp ca) _
    (generate_hash_eq g r info ns rp ca) (generate_sig_eq g r info ns rp ca)
    hsec hsound (fun heq => hv (by rw [← heq])) ?_ <;>
  first
    | exact Or.inl rfl
    | exact Or.inr ⟨rfl, rfl⟩

/-- The payload of the certificate issued for `completedResult` (independent
of the hash and signature functions held by the generator). -/
def refPayload : CertPayload :=
  certPayload (buildCertData trivialGen completedResult none "ts" "rp" "ca")

/-- A concrete generator whose hash function marks `refPayload`: it is
collision-free at `refPayload`. -/
def markerGen : CertificateGenerator :=
  { organization := "Ministry of Mines - JNARDDC"
    operator := "BitWipers System"
    hashPayload := fun p => if p = refPayload then "0" else "1"
    sign := id
    verifySig := fun s m => decide (s = m) }

theorem markerGen_hsec :
    ∀ p2, p2 ≠ certPayload (generate_certificate markerGen completedResult none "ts" "rp" "ca") →
      markerGen.hashPayload p2
        ≠ markerGen.hashPayload
          (certPayload (generate_certificate markerGen completedResult none "ts" "rp" "ca")) := by
  intro p2 hne
  have href : certPayload (generate_certificate markerGen completedResult none "ts" "rp" "ca")
      = refPayload := rfl
  rw [href] at hne ⊢
  show (if p2 = refPayload then "0" else "1") ≠ (if refPayload = refPayload then "0" else "1")
  rw [if_neg hne, if_pos rfl]
  decide

theorem markerGen_hsound : ∀ s m, markerGen.verifySig s m = true → s = markerGen.sign m := by
  intro s m h
  simpa [markerGen] using h

theorem markerGen_hmut :
    MutatesOneField (generate_certificate markerGen completedResult none "ts" "rp" "ca")
      { generate_certificate markerGen completedResult none "ts" "rp" "ca" with
        bytes_wiped := 9999 } :=
  Or.inr <| Or.inr <| Or.inr <| Or.inr <| Or.inr <| Or.inr <| Or.inr <| Or.inr <|
    Or.inr <| Or.inl ⟨9999, by decide, rfl⟩

/-- Witness for C3: mutating `bytes_wiped` of a concretely issued
certificate makes verification fail. -/
theorem certificate_tamper_detected_witness :
    MutatesOneField (generate_certificate markerGen completedResult none "ts" "rp" "ca")
      { generate_certificate markerGen completedResult none "ts" "rp" "ca" with
        bytes_wiped := 9999 } ∧
    verify_certificate markerGen
      { generate_certificate markerGen completedResult none "ts" "rp" "ca" with
        bytes_wiped := 9999 } = false :=
  ⟨markerGen_hmut,
    certificate_tamper_detected markerGen completedResult none "ts" "rp" "ca" _
      markerGen_hsec markerGen_hsound markerGen_hmut⟩

/-- A concrete non-terminal (`pending`) result. -/
def pendingResult : WipeResultM :=
  { device_path := "/dev/sdz"
    pattern := .nist_clear
    status := .pending
    start_time := 100
    end_time := none
    bytes_wiped := 0
    total_bytes := 4096
    passes_completed := 0
    total_passes := 1
    error_message := none
    verification_hash := none }

/-- C9 counterexample: the claim fails on the code.  `generate_certificate`
contains no check of `wipe_result.status`: called on a `pending` (non
terminal) result it does not raise — no `InvalidResultStateError` exists
anywhere in the repository — but returns a fully formed certificate whose
`status` field records `"pending"`. -/
theorem certificate_issued_for_pending_result :
    (generate_certificate trivialGen pendingResult none "ts" "rp" "ca").status
      = "pending" ∧
    (generate_certificate trivialGen pendingResult none "ts" "rp" "ca").certificate_hash
      = trivialGen.hashPayload
        (certPayload (generate_certificate trivialGen pendingResult none "ts" "rp" "ca")) :=
  ⟨rfl, rfl⟩

/-- C9 amended: certificate issuance performs no terminal-state validation:
for every `WipeResult`, whatever its status — including the non-terminal
`pending` and `in_progress` — `generate_certificate` returns a certificate
recording that status, with the hash and signature fields filled in as for
any other result; it never fails with an `InvalidResultStateError`. -/
theorem certificate_issued_for_any_status (g : CertificateGenerator)
    (r : WipeResultM) (info : Option DeviceInfo) (ns rp ca : String) :
    (generate_certificate g r info ns rp ca).status = r.status.value ∧
    (generate_certificate g r info ns rp ca).certificate_hash
      = g.hashPayload (certPayload (generate_certificate g r info ns rp ca)) ∧
    (generate_certificate g r info ns rp ca).digital_signature
      = g.sign (generate_certificate g r info ns rp ca).certificate_hash :=
  ⟨rfl, rfl, rfl⟩
